import Mathlib

/-!
# Verification of the tabular report generator of `app.py`

Shallow embedding of the data-analysis logic of the Streamlit dashboard
(`src/app.py`): address-column detection, summary metrics, per-column
pattern analysis, categorical frequency tables, the search filter of the
data tab, and CSV export.  Strings are modelled as lists of characters;
a table as a list of column names, a parallel list of column dtypes, and
a list of rows of cells.
-/

/-! ## Strings -/

/-- Strings are modelled as lists of characters. -/
abbrev Str := List Char

/-- Python `str.lower` restricted to the characters the dashboard's data can
contain: ASCII letters plus the Spanish accented capitals.  Characters with no
lowercase mapping listed here are returned unchanged, exactly as `str.lower`
leaves unmapped characters unchanged.  Note that `str.lower` maps `'Ó'` to
`'ó'`; it performs no accent stripping. -/
def pyLowerChar (c : Char) : Char :=
  if 'A' ≤ c ∧ c ≤ 'Z' then Char.ofNat (c.toNat + 32)
  else if c = 'Á' then 'á'
  else if c = 'É' then 'é'
  else if c = 'Í' then 'í'
  else if c = 'Ó' then 'ó'
  else if c = 'Ú' then 'ú'
  else if c = 'Ñ' then 'ñ'
  else if c = 'Ü' then 'ü'
  else c

/-- `s.lower()` on a whole string. -/
def pyLower (s : Str) : Str := s.map pyLowerChar

/-- `needle` occurs at the start of `hay` (the anchored test behind Python's
substring scan). -/
def startsWithStr : Str → Str → Bool
  | [], _ => true
  | _ :: _, [] => false
  | a :: as, b :: bs => a = b && startsWithStr as bs

/-- Python's `needle in hay` substring test. -/
def containsStr (needle : Str) : Str → Bool
  | [] => needle.isEmpty
  | c :: rest => startsWithStr needle (c :: rest) || containsStr needle rest

/-- The fixed keyword list of `process_addresses` (src/app.py:46). -/
def addressKeywords : List Str :=
  ["direccion".data, "address".data, "ubicacion".data, "domicilio".data, "calle".data]

/-- `process_addresses` (src/app.py:39-49): keep the column names whose
lowercased form contains one of the keywords. -/
def processAddresses (names : List Str) : List Str :=
  names.filter (fun n => addressKeywords.any (fun w => containsStr w (pyLower n)))

/-! ## Data model -/

/-- Column dtype: the search filter only distinguishes `object` (text) columns
(`select_dtypes(include=['object'])`, src/app.py:301) from the rest. -/
inductive Dtype
  | object
  | numeric
deriving DecidableEq

/-- A cell is a number, a text value, or missing (`NaN`). -/
inductive Cell
  | num : Int → Cell
  | text : Str → Cell
  | missing : Cell
deriving DecidableEq

/-- `pd.isnull` on one cell. -/
def Cell.isMissing : Cell → Bool
  | .missing => true
  | _ => false

/-- `astype(str)` on one cell: `str(x)`.  A missing value (`NaN`) stringifies
to the literal string `"nan"`, which is why src/app.py:302 passes `na=False`
to `str.contains` — after `astype(str)` no missing value remains, only the
text `"nan"`. -/
def cellStrPy : Cell → Str
  | .num n => (toString n).data
  | .text s => s
  | .missing => "nan".data

/-- `to_csv` stringification of one cell: missing values are written as the
empty field. -/
def cellStrCsv : Cell → Str
  | .num n => (toString n).data
  | .text s => s
  | .missing => []

/-- A table: ordered column names, their dtypes, and the rows.  Well-formed
tables have `dtypes.length = names.length` and every row of length
`names.length`; theorems state these hypotheses where they matter. -/
structure Table where
  names : List Str
  dtypes : List Dtype
  rows : List (List Cell)
deriving DecidableEq

/-- `len(df)`. -/
def Table.nRows (t : Table) : Nat := t.rows.length

/-- `len(df.columns)`. -/
def Table.nCols (t : Table) : Nat := t.names.length

/-- `df.isnull().sum().sum()` (src/app.py:88): total number of missing cells. -/
def Table.missingTotal (t : Table) : Nat :=
  (t.rows.map (fun r => (r.filter Cell.isMissing).length)).sum

/-! ## Summary metrics (tab 1) -/

/-- Result of a displayed metric: a rational value, the float `nan`
(produced by a division by zero), or not shown at all (guard not taken). -/
inductive MetricResult
  | value : ℚ → MetricResult
  | nanValue : MetricResult
  | notShown : MetricResult
deriving DecidableEq

/-- The completeness metric (src/app.py:92-94):
`if len(df) > 0: completeness = (1 - missing_count / (len(df) * len(df.columns))) * 100`.
The only guard is `len(df) > 0`.  Float division by a zero denominator does
not raise in numpy; it yields `nan`, modelled as `MetricResult.nanValue`. -/
def completeness (t : Table) : MetricResult :=
  if 0 < t.nRows then
    if t.nRows * t.nCols = 0 then .nanValue
    else .value ((1 - (t.missingTotal : ℚ) / ((t.nRows * t.nCols : ℕ) : ℚ)) * 100)
  else .notShown

/-! ## Counting and sorting (pandas `value_counts`) -/

/-- `cells.dropna()`. -/
def nonMissingCells (cells : List Cell) : List Cell :=
  cells.filter (fun c => !c.isMissing)

/-- Distinct elements in order of first appearance; `seen` accumulates the
values already emitted. -/
def firstDedupAux {α : Type} [DecidableEq α] : List α → List α → List α
  | [], _ => []
  | a :: l, seen =>
    if a ∈ seen then firstDedupAux l seen
    else a :: firstDedupAux l (a :: seen)

/-- Distinct elements of a list in order of first appearance. -/
def firstDedup {α : Type} [DecidableEq α] (l : List α) : List α :=
  firstDedupAux l []

/-- Insert a counted value into a list sorted by descending count, after any
entry of equal count (stable). -/
def insertDesc {α : Type} (p : α × Nat) : List (α × Nat) → List (α × Nat)
  | [] => [p]
  | q :: t => if q.2 ≤ p.2 then p :: q :: t else q :: insertDesc p t

/-- Stable insertion sort by descending count. -/
def sortDesc {α : Type} : List (α × Nat) → List (α × Nat)
  | [] => []
  | p :: t => insertDesc p (sortDesc t)

/-- Number of occurrences of `v` in `l`. -/
def countOcc {α : Type} [DecidableEq α] (v : α) (l : List α) : Nat :=
  l.count v

/-- `pd.Series(l).value_counts()`: occurrence counts of the distinct values,
sorted by descending count, ties in order of first appearance. -/
def valueCounts {α : Type} [DecidableEq α] (l : List α) : List (α × Nat) :=
  sortDesc ((firstDedup l).map (fun v => (v, countOcc v l)))

/-- `df[col].nunique()` — number of distinct non-missing values. -/
def uniqueCount (cells : List Cell) : Nat :=
  (firstDedup (nonMissingCells cells)).length

/-- `len(df[col].dropna())` (src/app.py:141). -/
def validCount (cells : List Cell) : Nat :=
  (nonMissingCells cells).length

/-- `duplicates = total - unique` (src/app.py:149), a Python integer. -/
def dupCount (cells : List Cell) : Int :=
  (validCount cells : Int) - (uniqueCount cells : Int)

/-! ## Rounding (numpy `round(…, 2)`) -/

/-- numpy rounding to the nearest integer, ties to even. -/
def roundHalfEven (q : ℚ) : Int :=
  let f := ⌊q⌋
  let r := q - (f : ℚ)
  if r < 1 / 2 then f
  else if 1 / 2 < r then f + 1
  else if f % 2 = 0 then f else f + 1

/-- numpy `x.round(2)`. -/
def round2 (q : ℚ) : ℚ := (roundHalfEven (q * 100) : ℚ) / 100

/-! ## Categorical frequency table (tab 3) -/

/-- The frequency table of src/app.py:243 and 263-268:
`value_counts().head(20)` of the column, and for each kept value the
percentage `count / len(df) * 100` rounded to two decimals.  `n` is the full
row count `len(df)` (not the non-missing count). -/
def freqTable (cells : List Cell) (n : Nat) : List (Cell × Nat × ℚ) :=
  ((valueCounts (nonMissingCells cells)).take 20).map
    (fun p => (p.1, p.2, round2 ((p.2 : ℚ) / (n : ℚ) * 100)))

/-! ## Word frequency (tab 2) -/

/-- Python whitespace for `str.split()`. -/
def isSpaceChar (c : Char) : Bool :=
  c = ' ' || c = '\t' || c = '\n' || c = '\r' || c = '\x0b' || c = '\x0c'

/-- `text.split()`: split on runs of whitespace, dropping empty pieces;
`acc` holds the characters of the current word, reversed. -/
def splitWsAux : Str → Str → List Str
  | [], acc => if acc = [] then [] else [acc.reverse]
  | c :: r, acc =>
    if isSpaceChar c then
      if acc = [] then splitWsAux r [] else acc.reverse :: splitWsAux r []
    else splitWsAux r (c :: acc)

/-- `text.split()` on a whole string. -/
def splitWs (s : Str) : List Str := splitWsAux s []

/-- `' '.join(df[col].dropna().astype(str).str.lower())` (src/app.py:156). -/
def joinedText (cells : List Cell) : Str :=
  List.intercalate " ".data ((nonMissingCells cells).map (fun c => pyLower (cellStrPy c)))

/-- The token stream of a column: `all_text.split()` (src/app.py:157). -/
def colTokens (cells : List Cell) : List Str := splitWs (joinedText cells)

/-- `pd.Series(all_text.split()).value_counts().head(10)` (src/app.py:157). -/
def top10Words (cells : List Cell) : List (Str × Nat) :=
  (valueCounts (colTokens cells)).take 10

/-- The words actually listed (src/app.py:163-165): the top-10 entries whose
token is longer than two characters.  Shorter tokens are filtered from the
display only — they still hold their top-10 slot and their count. -/
def displayedWords (cells : List Cell) : List (Str × Nat) :=
  (top10Words cells).filter (fun p => 2 < p.1.length)

/-- The chart data (src/app.py:170-171): the first five of the ten
`common_words` entries. -/
def chartWords (cells : List Cell) : List (Str × Nat) :=
  (top10Words cells).take 5

/-! ## Search filter (tab 4) -/

/-- One row of the per-column masks OR-ed together at src/app.py:300-302:
the row matches when some object-typed column's cell, stringified by
`astype(str)` (missing → `"nan"`), contains the term case-insensitively.
`str.contains(search_term, case=False)` treats the term as a regular
expression; terms are modelled here as literal strings, which is exact for
every term free of regex metacharacters. -/
def rowMatches (dtypes : List Dtype) (term : Str) (row : List Cell) : Bool :=
  (dtypes.zip row).any
    (fun dc => decide (dc.1 = Dtype.object) &&
      containsStr (pyLower term) (pyLower (cellStrPy dc.2)))

/-- The row predicate as the specification words it: some selected text-typed
column's string representation contains the term case-insensitively, with
missing values excluded from matching. -/
def specRowMatches (dtypes : List Dtype) (term : Str) (row : List Cell) : Bool :=
  (dtypes.zip row).any
    (fun dc => decide (dc.1 = Dtype.object) && !dc.2.isMissing &&
      containsStr (pyLower term) (pyLower (cellStrPy dc.2)))

/-- The search filter of src/app.py:298-303.  An empty term is falsy, so no
filtering happens.  Otherwise `mask` starts as the Python scalar `False`; it
becomes a boolean series only if some selected column has dtype `object` —
when none does, `display_df[False]` raises `KeyError`, modelled as `none`. -/
def searchFilter (t : Table) (term : Str) : Option Table :=
  if term = [] then some t
  else if t.dtypes.any (fun d => decide (d = Dtype.object)) then
    some { t with rows := t.rows.filter (rowMatches t.dtypes term) }
  else none

/-- Position of a column name: `df.columns.get_loc`, used to model label
selection. -/
def colIdx (t : Table) (n : Str) : Option Nat :=
  t.names.findIdx? (fun m => decide (m = n))

/-- `display_df[columns_to_show]` (src/app.py:295-296): the selected columns,
in the order they were selected; `KeyError` (modelled as `none`) if a label
is absent. -/
def selectCols (t : Table) (sel : List Str) : Option Table :=
  match sel.mapM (colIdx t) with
  | none => none
  | some idxs =>
    some ⟨sel,
          idxs.map (fun i => t.dtypes.getD i Dtype.object),
          t.rows.map (fun r => idxs.map (fun i => r.getD i Cell.missing))⟩

/-! ## CSV export (tab 4) -/

/-- `to_csv` minimal quoting: a field is quoted iff it contains the
delimiter, the quote character, or a line break. -/
def needsQuote (f : Str) : Bool :=
  f.any (fun c => c = ',' || c = '"' || c = '\n' || c = '\r')

/-- Double every quote character of a field body. -/
def escQuotes : Str → Str
  | [] => []
  | c :: r => if c = '"' then '"' :: '"' :: escQuotes r else c :: escQuotes r

/-- Serialize one CSV field with minimal quoting. -/
def serField (f : Str) : Str :=
  if needsQuote f then '"' :: (escQuotes f ++ ['"']) else f

/-- Serialize one CSV record: fields joined by commas. -/
def serRow : List Str → Str
  | [] => []
  | [f] => serField f
  | f :: g :: t => serField f ++ ',' :: serRow (g :: t)

/-- Serialize a sequence of records, each terminated by a newline — the text
`to_csv` produces. -/
def serTable (rows : List (List Str)) : Str :=
  (rows.map (fun r => serRow r ++ ['\n'])).flatten

/-- `display_df.to_csv(index=False)` (src/app.py:311): header line of the
column names, then one line per row, no index column. -/
def csvExport (t : Table) : Str :=
  serTable (t.names :: t.rows.map (fun r => r.map cellStrCsv))

/-- One-pass CSV reader.  State: remaining input, inside-quotes flag, current
field (reversed), current record's finished fields (reversed), finished
records (reversed). -/
def csvScan : Str → Bool → Str → List Str → List (List Str) → List (List Str)
  | [], _, fld, row, acc =>
    if fld = [] ∧ row = [] then acc.reverse
    else ((fld.reverse :: row).reverse :: acc).reverse
  | c :: rest, true, fld, row, acc =>
    if c = '"' then
      match rest with
      | [] => csvScan [] false fld row acc
      | d :: rest2 =>
        if d = '"' then csvScan rest2 true ('"' :: fld) row acc
        else csvScan (d :: rest2) false fld row acc
    else csvScan rest true (c :: fld) row acc
  | c :: rest, false, fld, row, acc =>
    if c = '"' then csvScan rest true fld row acc
    else if c = ',' then csvScan rest false [] (fld.reverse :: row) acc
    else if c = '\n' then csvScan rest false [] [] ((fld.reverse :: row).reverse :: acc)
    else csvScan rest false (c :: fld) row acc

/-- Modelled from the spec: re-parsing the exported CSV text.  The reader of
the downloaded file is not part of src/; the spec describes the format as
"CSV text, comma-separated, header line followed by one line per row", which
this standard quote-aware reader inverts. -/
def parseCSV (s : Str) : List (List Str) := csvScan s false [] [] []

/-! ## The data tab pipeline (tab 4) -/

/-- What tab 4 produces: the rows put on screen and the CSV text offered for
download. -/
structure Tab4View where
  shown : List (List Cell)
  csv : Str
deriving DecidableEq

/-- The filtering stage of tab 4 (src/app.py:293-303): start from a copy of
the table, keep the selected columns if any were selected, then apply the
search filter. -/
def tab4Filtered (t : Table) (sel : List Str) (term : Str) : Option Table :=
  match (if sel = [] then some t else selectCols t sel) with
  | none => none
  | some t1 => searchFilter t1 term

/-- The whole tab-4 pipeline (src/app.py:293-311): filter, then show the
first `cap` rows (`display_df.head(show_rows)`, src/app.py:306) and serialize
the *entire* filtered frame (`display_df.to_csv(index=False)`,
src/app.py:311). -/
def tab4 (t : Table) (sel : List Str) (term : Str) (cap : Nat) : Option Tab4View :=
  match (if sel = [] then some t else selectCols t sel) with
  | none => none
  | some t1 =>
    match searchFilter t1 term with
    | none => none
    | some t2 => some ⟨t2.rows.take cap, csvExport t2⟩

/-! ## Concrete tables used by witnesses and counterexamples -/

/-- A one-column text table holding a single missing value. -/
def naTable : Table :=
  ⟨["direccion".data], [Dtype.object], [[Cell.missing]]⟩

/-- The spec's example for the search filter: one address column with the
rows `"Calle Mayor 5"` and `"Av. Libertad"`. -/
def mayorTable : Table :=
  ⟨["direccion".data], [Dtype.object],
   [[Cell.text "Calle Mayor 5".data], [Cell.text "Av. Libertad".data]]⟩

/-- A table with one row and zero columns. -/
def rowNoColTable : Table := ⟨[], [], [[]]⟩

/-- The spec's completeness example: 10 rows × 2 columns with 3 missing
cells. -/
def tenByTwoTable : Table :=
  ⟨["direccion".data, "ciudad".data], [Dtype.object, Dtype.object],
   [[Cell.text "a".data, Cell.text "b".data],
    [Cell.text "c".data, Cell.missing],
    [Cell.text "d".data, Cell.text "e".data],
    [Cell.missing, Cell.text "f".data],
    [Cell.text "g".data, Cell.text "h".data],
    [Cell.text "i".data, Cell.text "j".data],
    [Cell.text "k".data, Cell.missing],
    [Cell.text "l".data, Cell.text "m".data],
    [Cell.text "n".data, Cell.text "o".data],
    [Cell.text "p".data, Cell.text "q".data]]⟩

/-- A column of six pairwise distinct values (six table rows). -/
def sixDistinct : List Cell :=
  [Cell.text "a".data, Cell.text "b".data, Cell.text "c".data,
   Cell.text "d".data, Cell.text "e".data, Cell.text "f".data]

/-- A column exercising the word analysis: the token `"av"` is frequent but
short, `"calle"` long. -/
def wordCells : List Cell :=
  [Cell.text "Av Mayor".data, Cell.text "av sol".data, Cell.text "Calle Luna".data,
   Cell.missing, Cell.text "calle av".data]

/-- A two-column table whose cells exercise CSV quoting: a comma, a quote,
and a missing value. -/
def quotedTable : Table :=
  ⟨["direccion".data, "ciudad".data], [Dtype.object, Dtype.object],
   [[Cell.text "Calle Mayor 5, 2B".data, Cell.text "Madrid".data],
    [Cell.missing, Cell.text "Villa \"Sol\"".data]]⟩

/-! ## Helper lemmas: substring scan -/

theorem startsWithStr_iff (n h : Str) :
    startsWithStr n h = true ↔ ∃ post, h = n ++ post := by
  induction n generalizing h with
  | nil => simp [startsWithStr]
  | cons a as ih =>
    cases h with
    | nil => simp [startsWithStr]
    | cons b bs =>
      simp only [startsWithStr, Bool.and_eq_true, decide_eq_true_eq, ih]
      constructor
      · rintro ⟨rfl, post, rfl⟩; exact ⟨post, rfl⟩
      · rintro ⟨post, hpost⟩
        injection hpost with h1 h2
        exact ⟨h1.symm, post, h2⟩

theorem containsStr_iff (n h : Str) :
    containsStr n h = true ↔ ∃ pre post, h = pre ++ n ++ post := by
  induction h with
  | nil =>
    simp only [containsStr, List.isEmpty_iff]
    constructor
    · rintro rfl; exact ⟨[], [], rfl⟩
    · rintro ⟨pre, post, hpp⟩
      rcases List.append_eq_nil.mp (List.append_eq_nil.mp hpp.symm).1 with ⟨_, h2⟩
      exact h2
  | cons c rest ih =>
    simp only [containsStr, Bool.or_eq_true, startsWithStr_iff, ih]
    constructor
    · rintro (⟨post, hpp⟩ | ⟨pre, post, rfl⟩)
      · exact ⟨[], post, by simpa using hpp⟩
      · exact ⟨c :: pre, post, rfl⟩
    · rintro ⟨pre, post, hpp⟩
      cases pre with
      | nil => exact Or.inl ⟨post, by simpa using hpp⟩
      | cons p ps =>
        injection hpp with h1 h2
        exact Or.inr ⟨ps, post, h2⟩

/-! ## Helper lemmas: first-occurrence dedup -/

theorem mem_firstDedupAux {α : Type} [DecidableEq α] (x : α) :
    ∀ (l seen : List α), x ∈ firstDedupAux l seen ↔ x ∈ l ∧ x ∉ seen
  | [], seen => by simp [firstDedupAux]
  | a :: l, seen => by
    by_cases ha : a ∈ seen
    · rw [firstDedupAux, if_pos ha, mem_firstDedupAux x l seen]
      simp only [List.mem_cons]
      constructor
      · rintro ⟨h1, h2⟩; exact ⟨Or.inr h1, h2⟩
      · rintro ⟨rfl | h1, h2⟩
        · exact absurd ha h2
        · exact ⟨h1, h2⟩
    · rw [firstDedupAux, if_neg ha]
      simp only [List.mem_cons, mem_firstDedupAux x l (a :: seen)]
      constructor
      · rintro (rfl | ⟨h1, h2⟩)
        · exact ⟨Or.inl rfl, ha⟩
        · exact ⟨Or.inr h1, fun hx => h2 (Or.inr hx)⟩
      · rintro ⟨rfl | h1, h2⟩
        · exact Or.inl rfl
        · by_cases hxa : x = a
          · exact Or.inl hxa
          · exact Or.inr ⟨h1, fun hx => by
              rcases hx with h | h
              · exact hxa h
              · exact h2 h⟩

theorem mem_firstDedup {α : Type} [DecidableEq α] (x : α) (l : List α) :
    x ∈ firstDedup l ↔ x ∈ l := by
  simp [firstDedup, mem_firstDedupAux]

theorem nodup_firstDedupAux {α : Type} [DecidableEq α] :
    ∀ (l seen : List α), (firstDedupAux l seen).Nodup
  | [], seen => by simp [firstDedupAux]
  | a :: l, seen => by
    by_cases ha : a ∈ seen
    · rw [firstDedupAux, if_pos ha]; exact nodup_firstDedupAux l seen
    · rw [firstDedupAux, if_neg ha]
      refine List.nodup_cons.mpr ⟨fun hmem => ?_, nodup_firstDedupAux l (a :: seen)⟩
      exact ((mem_firstDedupAux a l (a :: seen)).mp hmem).2 (List.mem_cons_self a seen)

theorem nodup_firstDedup {α : Type} [DecidableEq α] (l : List α) :
    (firstDedup l).Nodup := nodup_firstDedupAux l []

theorem length_firstDedupAux_le {α : Type} [DecidableEq α] :
    ∀ (l seen : List α), (firstDedupAux l seen).length ≤ l.length
  | [], _ => by simp [firstDedupAux]
  | a :: l, seen => by
    by_cases ha : a ∈ seen
    · rw [firstDedupAux, if_pos ha]
      exact (length_firstDedupAux_le l seen).trans (Nat.le_succ _)
    · rw [firstDedupAux, if_neg ha]
      simpa using Nat.succ_le_succ (length_firstDedupAux_le l (a :: seen))

theorem length_firstDedup_le {α : Type} [DecidableEq α] (l : List α) :
    (firstDedup l).length ≤ l.length := length_firstDedupAux_le l []

/-! ## Helper lemmas: counts over a duplicate-free cover -/

theorem length_eq_count_add_length_filter {α : Type} [DecidableEq α] (a : α) (l : List α) :
    l.length = l.count a + (l.filter (fun b => b ≠ a)).length := by
  induction l with
  | nil => simp
  | cons x xs ih =>
    by_cases hxa : x = a
    · subst hxa
      simp only [ne_eq, decide_not] at ih ⊢
      simp [List.count_cons, List.filter_cons]
      omega
    · simp only [ne_eq, decide_not] at ih ⊢
      simp [List.count_cons, List.filter_cons, hxa]
      omega

theorem sum_count_nodup {α : Type} [DecidableEq α] :
    ∀ (d l : List α), d.Nodup → (∀ x ∈ l, x ∈ d) →
      (d.map (fun v => l.count v)).sum = l.length
  | [], l, _, hcov => by
    have : l = [] := List.eq_nil_iff_forall_not_mem.mpr (fun a ha => by simpa using hcov a ha)
    simp [this]
  | a :: d, l, hnd, hcov => by
    have hand := List.nodup_cons.mp hnd
    have hmap : d.map (fun v => l.count v) = d.map (fun v => (l.filter (fun b => b ≠ a)).count v) := by
      refine List.map_congr_left (fun v hv => ?_)
      have hva : v ≠ a := fun h => hand.1 (h ▸ hv)
      rw [List.count_filter]
      simp [hva]
    have hcov' : ∀ x ∈ l.filter (fun b => b ≠ a), x ∈ d := by
      intro x hx
      have hxl := List.mem_filter.mp hx
      have hxa : x ≠ a := by simpa using hxl.2
      rcases List.mem_cons.mp (hcov x hxl.1) with rfl | h
      · exact absurd rfl hxa
      · exact h
    have ih := sum_count_nodup d (l.filter (fun b => b ≠ a)) hand.2 hcov'
    rw [List.map_cons, List.sum_cons, hmap, ih,
      length_eq_count_add_length_filter a l]

/-! ## Helper lemmas: stable sort by descending count -/

theorem insertDesc_perm {α : Type} (p : α × Nat) :
    ∀ l : List (α × Nat), (insertDesc p l).Perm (p :: l)
  | [] => by simp [insertDesc]
  | q :: t => by
    rw [insertDesc]
    by_cases h : q.2 ≤ p.2
    · rw [if_pos h]
    · rw [if_neg h]
      exact ((insertDesc_perm p t).cons q).trans (List.Perm.swap p q t)

theorem sortDesc_perm {α : Type} :
    ∀ l : List (α × Nat), (sortDesc l).Perm l
  | [] => by simp [sortDesc]
  | p :: t => by
    rw [sortDesc]
    exact (insertDesc_perm p (sortDesc t)).trans ((sortDesc_perm t).cons p)

theorem mem_insertDesc {α : Type} (p x : α × Nat) (l : List (α × Nat)) :
    x ∈ insertDesc p l ↔ x = p ∨ x ∈ l := by
  rw [(insertDesc_perm p l).mem_iff]
  simp

theorem insertDesc_sorted {α : Type} (p : α × Nat) :
    ∀ l : List (α × Nat), l.Pairwise (fun a b => b.2 ≤ a.2) →
      (insertDesc p l).Pairwise (fun a b => b.2 ≤ a.2)
  | [], _ => by simp [insertDesc]
  | q :: t, h => by
    have hq := (List.pairwise_cons.mp h).1
    have ht := (List.pairwise_cons.mp h).2
    rw [insertDesc]
    by_cases hle : q.2 ≤ p.2
    · rw [if_pos hle]
      refine List.pairwise_cons.mpr ⟨?_, h⟩
      intro b hb
      rcases List.mem_cons.mp hb with rfl | hbt
      · exact hle
      · exact (hq b hbt).trans hle
    · rw [if_neg hle]
      refine List.pairwise_cons.mpr ⟨?_, insertDesc_sorted p t ht⟩
      intro b hb
      rcases (mem_insertDesc p b t).mp hb with rfl | hbt
      · exact Nat.le_of_not_le hle
      · exact hq b hbt

theorem sortDesc_sorted {α : Type} :
    ∀ l : List (α × Nat), (sortDesc l).Pairwise (fun a b => b.2 ≤ a.2)
  | [] => by simp [sortDesc]
  | p :: t => by
    rw [sortDesc]
    exact insertDesc_sorted p (sortDesc t) (sortDesc_sorted t)

/-! ## Helper lemmas: `valueCounts` -/

theorem mem_valueCounts {α : Type} [DecidableEq α] (l : List α) (p : α × Nat) :
    p ∈ valueCounts l ↔ p.1 ∈ l ∧ p.2 = countOcc p.1 l := by
  rw [valueCounts, (sortDesc_perm _).mem_iff, List.mem_map]
  constructor
  · rintro ⟨v, hv, rfl⟩
    exact ⟨(mem_firstDedup v l).mp hv, rfl⟩
  · rintro ⟨h1, h2⟩
    exact ⟨p.1, (mem_firstDedup p.1 l).mpr h1, by rw [← h2]⟩

theorem valueCounts_sorted {α : Type} [DecidableEq α] (l : List α) :
    (valueCounts l).Pairwise (fun a b => b.2 ≤ a.2) := sortDesc_sorted _

theorem sum_snd_valueCounts {α : Type} [DecidableEq α] (l : List α) :
    ((valueCounts l).map (fun p => p.2)).sum = l.length := by
  have hperm : ((valueCounts l).map (fun p => p.2)).Perm
      (((firstDedup l).map (fun v => (v, countOcc v l))).map (fun p => p.2)) :=
    (sortDesc_perm _).map _
  rw [hperm.sum_eq, List.map_map]
  exact sum_count_nodup (firstDedup l) l (nodup_firstDedup l)
    (fun x hx => (mem_firstDedup x l).mpr hx)

/-! ## Helper lemmas: any over a zip, by position -/

theorem zipAny_iff {α β : Type} (p : α → β → Bool) :
    ∀ (l₁ : List α) (l₂ : List β),
      ((l₁.zip l₂).any (fun x => p x.1 x.2) = true) ↔
        ∃ i, ∃ h1 : i < l₁.length, ∃ h2 : i < l₂.length,
          p (l₁.get ⟨i, h1⟩) (l₂.get ⟨i, h2⟩) = true
  | [], l₂ => by simp
  | a :: as, [] => by simp
  | a :: as, b :: bs => by
    simp only [List.zip_cons_cons, List.any_cons, Bool.or_eq_true, zipAny_iff p as bs]
    constructor
    · rintro (h | ⟨i, h1, h2, h⟩)
      · exact ⟨0, Nat.succ_pos _, Nat.succ_pos _, h⟩
      · exact ⟨i + 1, Nat.succ_lt_succ h1, Nat.succ_lt_succ h2, h⟩
    · rintro ⟨i, h1, h2, h⟩
      cases i with
      | zero => exact Or.inl h
      | succ j =>
        exact Or.inr ⟨j, Nat.lt_of_succ_lt_succ h1, Nat.lt_of_succ_lt_succ h2, h⟩

/-! ## Claim C2 — the address detector does not normalize accents -/

/-- C2 counterexample: the claim says a column named `DIRECCIÓN_ENVÍO` is
flagged because its accent-normalized lowercase form contains `direccion`.
The code only lowercases (`col.lower()`, src/app.py:46); `dirección_envío`
does not contain `direccion`, so the column is not flagged. -/
theorem claim_C2_counterexample :
    processAddresses ["DIRECCIÓN_ENVÍO".data] = [] ∧
    pyLower "DIRECCIÓN_ENVÍO".data = "dirección_envío".data := by decide

/-- C2 amended: the detector is case-insensitive but performs no accent
normalization: `DIRECCIÓN_ENVÍO` is never flagged, `street` is never flagged,
and the accent-free `DIRECCION_ENVIO` is always flagged when present. -/
theorem claim_C2 (names : List Str) :
    "DIRECCIÓN_ENVÍO".data ∉ processAddresses names ∧
    "street".data ∉ processAddresses names ∧
    ("DIRECCION_ENVIO".data ∈ names → "DIRECCION_ENVIO".data ∈ processAddresses names) := by
  refine ⟨fun h => ?_, fun h => ?_, fun h => ?_⟩
  · have := (List.mem_filter.mp h).2
    exact absurd this (by decide)
  · have := (List.mem_filter.mp h).2
    exact absurd this (by decide)
  · exact List.mem_filter.mpr ⟨h, by decide⟩

/-- C2 witness: the amended theorem applied to the one-element list holding
the accent-free name. -/
theorem claim_C2_witness :
    "DIRECCION_ENVIO".data ∈ processAddresses ["DIRECCION_ENVIO".data] :=
  (claim_C2 ["DIRECCION_ENVIO".data]).2.2 (by decide)

/-! ## Claim C6 — unique + duplicate = valid -/

/-- C6: for every analyzed column, the reported unique count never exceeds the
valid (non-missing) count, and unique + duplicate = valid, where the
duplicate count is `total - unique` (src/app.py:141-149). -/
theorem claim_C6 (cells : List Cell) :
    uniqueCount cells ≤ validCount cells ∧
    (uniqueCount cells : Int) + dupCount cells = (validCount cells : Int) := by
  have hle : uniqueCount cells ≤ validCount cells :=
    length_firstDedup_le (nonMissingCells cells)
  exact ⟨hle, by unfold dupCount; omega⟩

/-! ## Claim C7 — the address detector is an exact keyword-substring filter -/

/-- C7: a name is returned by `process_addresses` exactly when it occurs in
the input and its lowercased form contains one of the five fixed keywords as
a substring — a pure, deterministic, case-insensitive substring match. -/
theorem claim_C7 (names : List Str) (n : Str) :
    n ∈ processAddresses names ↔
      n ∈ names ∧ ∃ k ∈ addressKeywords, ∃ pre post, pyLower n = pre ++ k ++ post := by
  rw [processAddresses, List.mem_filter, List.any_eq_true]
  constructor
  · rintro ⟨hmem, k, hk, hc⟩
    exact ⟨hmem, k, hk, (containsStr_iff k (pyLower n)).mp hc⟩
  · rintro ⟨hmem, k, hk, hsub⟩
    exact ⟨hmem, k, hk, (containsStr_iff k (pyLower n)).mpr hsub⟩

/-! ## Claim C9 — the spec's concrete search-filter example -/

/-- C9: on the table with address rows `"Calle Mayor 5"` and `"Av. Libertad"`,
searching for `"mayor"` keeps exactly the first row (case-insensitively). -/
theorem claim_C9 :
    searchFilter mayorTable "mayor".data =
      some ⟨["direccion".data], [Dtype.object], [[Cell.text "Calle Mayor 5".data]]⟩ := by
  decide

/-! ## Claim C1 — what the search filter actually keeps -/

/-- C1 counterexample: on a one-column text table whose only cell is missing,
the code keeps the row for the term `"nan"` (because `astype(str)` turns the
missing value into the text `"nan"`), while the spec's predicate — missing
values excluded from matching — rejects it.  So the filter does not keep
exactly the rows the claim describes. -/
theorem claim_C1_counterexample :
    searchFilter naTable "nan".data = some naTable ∧
    specRowMatches naTable.dtypes "nan".data [Cell.missing] = false := by decide

/-- C1 amended: for a non-empty search term, if some selected column is
object-typed the filter keeps exactly the rows in which at least one
object-typed column's `astype(str)` representation (missing values included,
stringified as `"nan"`) contains the term case-insensitively; if no selected
column is object-typed the operation raises (`display_df[False]`), modelled
as `none`.  Terms are modelled as literal strings; regex-metacharacter terms
can additionally raise in the code. -/
theorem claim_C1 (t : Table) (term : Str) (hterm : term ≠ []) :
    ((∃ d ∈ t.dtypes, d = Dtype.object) →
      searchFilter t term =
        some ⟨t.names, t.dtypes, t.rows.filter (rowMatches t.dtypes term)⟩ ∧
      ∀ row, rowMatches t.dtypes term row = true ↔
        ∃ i, ∃ h1 : i < t.dtypes.length, ∃ h2 : i < row.length,
          t.dtypes.get ⟨i, h1⟩ = Dtype.object ∧
          containsStr (pyLower term) (pyLower (cellStrPy (row.get ⟨i, h2⟩))) = true) ∧
    ((∀ d ∈ t.dtypes, d ≠ Dtype.object) → searchFilter t term = none) := by
  constructor
  · rintro ⟨d, hd, rfl⟩
    have hany : t.dtypes.any (fun d => decide (d = Dtype.object)) = true :=
      List.any_eq_true.mpr ⟨Dtype.object, hd, by simp⟩
    constructor
    · rw [searchFilter, if_neg hterm, if_pos hany]
    · intro row
      rw [rowMatches,
        zipAny_iff (fun d c =>
          decide (d = Dtype.object) && containsStr (pyLower term) (pyLower (cellStrPy c)))]
      simp only [Bool.and_eq_true, decide_eq_true_eq]
  · intro hall
    have hany : t.dtypes.any (fun d => decide (d = Dtype.object)) = false := by
      simp only [List.any_eq_false, decide_eq_true_eq]
      exact hall
    rw [searchFilter, if_neg hterm, if_neg (by simp [hany])]

/-- C1 witness: the amended theorem applied to the missing-cell table and the
term `"nan"`. -/
theorem claim_C1_witness :
    searchFilter naTable "nan".data =
      some ⟨naTable.names, naTable.dtypes,
            naTable.rows.filter (rowMatches naTable.dtypes "nan".data)⟩ :=
  ((claim_C1 naTable "nan".data (by decide)).1 ⟨Dtype.object, by decide, rfl⟩).1

/-! ## Claim C3 — the completeness guard -/

/-- C3 counterexample: a table with one row and zero columns passes the
`len(df) > 0` guard, yet `rows × columns = 0`, so the division by zero is
performed (yielding the float `nan`) — the computation is not guarded
whenever `rows × columns = 0`. -/
theorem claim_C3_counterexample :
    0 < rowNoColTable.nRows ∧ rowNoColTable.nRows * rowNoColTable.nCols = 0 ∧
    completeness rowNoColTable = MetricResult.nanValue := by decide

/-- C3 amended: the completeness metric is guarded only by `len(df) > 0`;
for every table with at least one row and at least one column it equals
`(1 − missing/(rows × columns)) × 100`, and with zero rows the metric is not
shown. -/
theorem claim_C3 (t : Table) :
    (0 < t.nRows → 0 < t.nCols →
      completeness t =
        .value ((1 - (t.missingTotal : ℚ) / ((t.nRows * t.nCols : ℕ) : ℚ)) * 100)) ∧
    (t.nRows = 0 → completeness t = .notShown) := by
  constructor
  · intro hr hc
    rw [completeness, if_pos hr, if_neg (by simp [Nat.mul_eq_zero]; omega)]
  · intro h0
    rw [completeness, if_neg (by omega)]

/-- C3 witness: the spec's example, 10 rows × 2 columns with 3 missing cells,
gives 85%. -/
theorem claim_C3_witness : completeness tenByTwoTable = MetricResult.value 85 := by
  have h := (claim_C3 tenByTwoTable).1 (by decide) (by decide)
  rw [h]
  norm_num [Table.missingTotal, tenByTwoTable, Table.nRows, Table.nCols, Cell.isMissing]

/-! ## Claim C4 — the categorical frequency table -/

theorem sum_map_take_le {α : Type} (f : α → Nat) (k : Nat) (l : List α) :
    ((l.take k).map f).sum ≤ (l.map f).sum := by
  conv_rhs => rw [← List.take_append_drop k l]
  rw [List.map_append, List.sum_append]
  exact Nat.le_add_right _ _

theorem sum_map_div_mul_eq (s : List Nat) (n : Nat) :
    (s.map (fun (c : Nat) => (c : ℚ) / (n : ℚ) * 100)).sum = (s.sum : ℚ) * (100 / (n : ℚ)) := by
  induction s with
  | nil => simp
  | cons a t ih =>
    rw [List.map_cons, List.sum_cons, List.sum_cons, ih]
    push_cast
    ring

theorem sum_div_mul_bound (s : List Nat) (n : Nat) (h : s.sum ≤ n) (h0 : 0 < n) :
    (s.map (fun (c : Nat) => (c : ℚ) / (n : ℚ) * 100)).sum ≤ 100 := by
  rw [sum_map_div_mul_eq]
  have hn : (0 : ℚ) < (n : ℚ) := by exact_mod_cast h0
  have hs : ((s.sum : ℕ) : ℚ) ≤ (n : ℚ) := by exact_mod_cast h
  have hb : ((s.sum : ℕ) : ℚ) * (100 / (n : ℚ)) ≤ (n : ℚ) * (100 / (n : ℚ)) := by
    apply mul_le_mul_of_nonneg_right hs
    positivity
  calc ((s.sum : ℕ) : ℚ) * (100 / (n : ℚ)) ≤ (n : ℚ) * (100 / (n : ℚ)) := hb
    _ = 100 := by field_simp

/-- C4 counterexample: a column of six pairwise distinct values in a six-row
table lists six percentages of `round2(100/6) = 16.67`, which sum to
`100.02 > 100`. -/
theorem claim_C4_counterexample :
    sixDistinct.length = 6 ∧
    100 < ((freqTable sixDistinct 6).map (fun e => e.2.2)).sum := by
  refine ⟨by decide, ?_⟩
  have h0 : (valueCounts (nonMissingCells sixDistinct)).take 20 =
      [(Cell.text "a".data, 1), (Cell.text "b".data, 1), (Cell.text "c".data, 1),
       (Cell.text "d".data, 1), (Cell.text "e".data, 1), (Cell.text "f".data, 1)] := by decide
  have h2 : ((freqTable sixDistinct 6).map (fun e => e.2.2)).sum =
      6 * round2 ((1 : ℚ) / 6 * 100) := by
    simp only [freqTable, h0, List.map_cons, List.map_nil, List.sum_cons, List.sum_nil]
    push_cast
    ring
  rw [h2]
  norm_num [round2, roundHalfEven, Int.fract]

/-- C4 amended: the frequency table keeps at most the top 20 distinct values
by descending count, each percentage is `round2(count/rows × 100)` of the
value's occurrence count, and the percentages *before rounding* sum to at
most 100% (after rounding the sum can exceed 100%, see the counterexample). -/
theorem claim_C4 (cells : List Cell) (n : Nat) (hn : cells.length ≤ n) (h0 : 0 < n) :
    (freqTable cells n).length ≤ 20 ∧
    (freqTable cells n).Pairwise (fun a b => b.2.1 ≤ a.2.1) ∧
    (∀ e ∈ freqTable cells n,
        e.2.2 = round2 ((e.2.1 : ℚ) / (n : ℚ) * 100) ∧
        e.2.1 = countOcc e.1 (nonMissingCells cells)) ∧
    (∀ e ∈ freqTable cells n, ∀ q ∈ (valueCounts (nonMissingCells cells)).drop 20,
        q.2 ≤ e.2.1) ∧
    ((freqTable cells n).map (fun e => (e.2.1 : ℚ) / (n : ℚ) * 100)).sum ≤ 100 := by
  refine ⟨?_, ?_, ?_, ?_, ?_⟩
  · rw [freqTable, List.length_map, List.length_take]
    exact min_le_left _ _
  · rw [freqTable]
    refine List.pairwise_map.mpr ?_
    exact ((valueCounts_sorted (nonMissingCells cells)).sublist
      (List.take_sublist 20 _)).imp (fun h => h)
  · intro e he
    rw [freqTable] at he
    obtain ⟨p, hp, rfl⟩ := List.mem_map.mp he
    refine ⟨rfl, ?_⟩
    have hpvc : p ∈ valueCounts (nonMissingCells cells) := List.mem_of_mem_take hp
    exact ((mem_valueCounts _ p).mp hpvc).2
  · intro e he q hq
    rw [freqTable] at he
    obtain ⟨p, hp, rfl⟩ := List.mem_map.mp he
    have hpw := valueCounts_sorted (nonMissingCells cells)
    rw [← List.take_append_drop 20 (valueCounts (nonMissingCells cells))] at hpw
    exact (List.pairwise_append.mp hpw).2.2 p hp q hq
  · have hmapeq : (freqTable cells n).map (fun e => (e.2.1 : ℚ) / (n : ℚ) * 100) =
        (((valueCounts (nonMissingCells cells)).take 20).map (fun p => p.2)).map
          (fun (c : Nat) => (c : ℚ) / (n : ℚ) * 100) := by
      simp only [freqTable, List.map_map]
      rfl
    rw [hmapeq]
    refine sum_div_mul_bound _ n ?_ h0
    calc (((valueCounts (nonMissingCells cells)).take 20).map (fun p => p.2)).sum
        ≤ ((valueCounts (nonMissingCells cells)).map (fun p => p.2)).sum :=
          sum_map_take_le _ 20 _
      _ = (nonMissingCells cells).length := sum_snd_valueCounts _
      _ ≤ cells.length := List.length_filter_le _ _
      _ ≤ n := hn

/-- C4 witness: the amended theorem applied to the six-distinct-values
column. -/
theorem claim_C4_witness : (freqTable sixDistinct 6).length ≤ 20 :=
  (claim_C4 sixDistinct 6 (by decide) (by decide)).1

/-! ## Claim C5 — the word-frequency analysis -/

/-- C5: the word analysis takes the top-10 most frequent lowercase whitespace
tokens of the column (counts computed over *all* tokens, short ones
included), displays only those top-10 entries whose token is longer than two
characters (short tokens keep their slot but are hidden), and charts the
first five of the ten entries. -/
theorem claim_C5 (cells : List Cell) :
    (top10Words cells).length ≤ 10 ∧
    (top10Words cells).Pairwise (fun p q => q.2 ≤ p.2) ∧
    (∀ p ∈ top10Words cells, p.1 ∈ colTokens cells ∧ p.2 = countOcc p.1 (colTokens cells)) ∧
    (∀ p ∈ top10Words cells, ∀ q ∈ (valueCounts (colTokens cells)).drop 10, q.2 ≤ p.2) ∧
    (∀ p ∈ displayedWords cells, 2 < p.1.length ∧ p ∈ top10Words cells) ∧
    (∀ p ∈ top10Words cells, p.1.length ≤ 2 → p ∉ displayedWords cells) ∧
    chartWords cells = (top10Words cells).take 5 := by
  refine ⟨?_, ?_, ?_, ?_, ?_, ?_, rfl⟩
  · rw [top10Words, List.length_take]
    exact min_le_left _ _
  · exact (valueCounts_sorted (colTokens cells)).sublist (List.take_sublist 10 _)
  · intro p hp
    have hvc : p ∈ valueCounts (colTokens cells) := List.mem_of_mem_take hp
    exact (mem_valueCounts _ p).mp hvc
  · intro p hp q hq
    have hpw := valueCounts_sorted (colTokens cells)
    rw [← List.take_append_drop 10 (valueCounts (colTokens cells))] at hpw
    exact (List.pairwise_append.mp hpw).2.2 p hp q hq
  · intro p hp
    have := List.mem_filter.mp hp
    exact ⟨by simpa using this.2, this.1⟩
  · intro p _ hlen hmem
    have := List.mem_filter.mp hmem
    have h2 : 2 < p.1.length := by simpa using this.2
    omega

/-- C5 witness: on the sample address column, the short token `"av"` holds
the first top-10 slot with count 3, computed over all tokens. -/
theorem claim_C5_witness :
    ("av".data, 3) ∈ top10Words wordCells ∧
    (("av".data, 3) : Str × Nat).2 = countOcc "av".data (colTokens wordCells) := by
  refine ⟨by decide, ?_⟩
  exact ((claim_C5 wordCells).2.2.1 _ (by decide)).2

/-! ## Helper lemmas: the CSV reader inverts the serializer -/

theorem csvScan_bare (f : Str) (rest : Str)
    (hf : ∀ c ∈ f, c ≠ '"' ∧ c ≠ ',' ∧ c ≠ '\n') :
    ∀ (fld : Str) (row : List Str) (acc : List (List Str)),
      csvScan (f ++ rest) false fld row acc
        = csvScan rest false (f.reverse ++ fld) row acc := by
  induction f with
  | nil => intro fld row acc; simp
  | cons c f' ih =>
    intro fld row acc
    have hc := hf c (List.mem_cons_self c f')
    rw [List.cons_append]
    have hstep : csvScan (c :: (f' ++ rest)) false fld row acc
        = csvScan (f' ++ rest) false (c :: fld) row acc := by
      rw [csvScan]
      rw [if_neg hc.1, if_neg hc.2.1, if_neg hc.2.2]
    rw [hstep, ih (fun d hd => hf d (List.mem_cons_of_mem c hd)) (c :: fld) row acc]
    simp

theorem csvScan_quoted (f : Str) :
    ∀ (rest : Str), (rest = [] ∨ ∃ d r2, rest = d :: r2 ∧ d ≠ '"') →
    ∀ (fld : Str) (row : List Str) (acc : List (List Str)),
      csvScan (escQuotes f ++ '"' :: rest) true fld row acc
        = csvScan rest false (f.reverse ++ fld) row acc := by
  induction f with
  | nil =>
    intro rest hrest fld row acc
    rcases hrest with rfl | ⟨d, r2, rfl, hd⟩
    · simp [escQuotes, csvScan]
    · simp [escQuotes, csvScan, hd]
  | cons a f' ih =>
    intro rest hrest fld row acc
    by_cases ha : a = '"'
    · subst ha
      have heq : escQuotes ('"' :: f') ++ '"' :: rest
          = '"' :: '"' :: (escQuotes f' ++ '"' :: rest) := by
        simp [escQuotes]
      rw [heq]
      have hstep : csvScan ('"' :: '"' :: (escQuotes f' ++ '"' :: rest)) true fld row acc
          = csvScan (escQuotes f' ++ '"' :: rest) true ('"' :: fld) row acc := by
        simp [csvScan]
      rw [hstep, ih rest hrest ('"' :: fld) row acc]
      simp
    · have heq : escQuotes (a :: f') ++ '"' :: rest
          = a :: (escQuotes f' ++ '"' :: rest) := by
        simp [escQuotes, ha]
      rw [heq]
      have hstep : csvScan (a :: (escQuotes f' ++ '"' :: rest)) true fld row acc
          = csvScan (escQuotes f' ++ '"' :: rest) true (a :: fld) row acc := by
        rw [csvScan.eq_def]
        simp [ha]
      rw [hstep, ih rest hrest (a :: fld) row acc]
      simp

theorem csvScan_field (f : Str) (rest : Str)
    (hrest : rest = [] ∨ ∃ r2, rest = ',' :: r2 ∨ rest = '\n' :: r2)
    (row : List Str) (acc : List (List Str)) :
    csvScan (serField f ++ rest) false [] row acc
      = csvScan rest false f.reverse row acc := by
  by_cases hq : needsQuote f
  · rw [serField, if_pos hq]
    have heq : ('"' :: (escQuotes f ++ ['"'])) ++ rest
        = '"' :: (escQuotes f ++ '"' :: rest) := by
      simp
    rw [heq]
    have hstep : csvScan ('"' :: (escQuotes f ++ '"' :: rest)) false [] row acc
        = csvScan (escQuotes f ++ '"' :: rest) true [] row acc := by
      simp [csvScan]
    have hr : rest = [] ∨ ∃ d r2, rest = d :: r2 ∧ d ≠ '"' := by
      rcases hrest with rfl | ⟨r2, rfl | rfl⟩
      · exact Or.inl rfl
      · exact Or.inr ⟨',', r2, rfl, by decide⟩
      · exact Or.inr ⟨'\n', r2, rfl, by decide⟩
    rw [hstep, csvScan_quoted f rest hr [] row acc]
    simp
  · rw [serField, if_neg hq]
    have hchars : ∀ c ∈ f, c ≠ '"' ∧ c ≠ ',' ∧ c ≠ '\n' := by
      intro c hc
      have h1 : ¬ ((c = ',' || c = '"' || c = '\n' || c = '\r') = true) := fun hcc =>
        hq (List.any_eq_true.mpr ⟨c, hc, hcc⟩)
      simp only [Bool.or_eq_true, decide_eq_true_eq, not_or] at h1
      obtain ⟨⟨⟨h2, h3⟩, h4⟩, h5⟩ := h1
      exact ⟨h3, h2, h4⟩
    rw [csvScan_bare f rest hchars [] row acc]
    simp

theorem csvScan_row (f : Str) (r' : List Str) :
    ∀ (rest : Str) (row : List Str) (acc : List (List Str)),
      csvScan (serRow (f :: r') ++ '\n' :: rest) false [] row acc
        = csvScan rest false [] [] ((row.reverse ++ (f :: r')) :: acc) := by
  induction r' generalizing f with
  | nil =>
    intro rest row acc
    have hser : serRow [f] = serField f := rfl
    rw [hser, csvScan_field f ('\n' :: rest) (Or.inr ⟨rest, Or.inr rfl⟩) row acc]
    have hstep : csvScan ('\n' :: rest) false f.reverse row acc
        = csvScan rest false [] [] (((f.reverse.reverse :: row).reverse) :: acc) := by
      simp [csvScan]
    rw [hstep]
    simp
  | cons g t ih =>
    intro rest row acc
    have hser : serRow (f :: g :: t) = serField f ++ ',' :: serRow (g :: t) := rfl
    rw [hser]
    have hassoc : (serField f ++ ',' :: serRow (g :: t)) ++ '\n' :: rest
        = serField f ++ (',' :: (serRow (g :: t) ++ '\n' :: rest)) := by
      simp
    rw [hassoc,
      csvScan_field f (',' :: (serRow (g :: t) ++ '\n' :: rest))
        (Or.inr ⟨serRow (g :: t) ++ '\n' :: rest, Or.inl rfl⟩) row acc]
    have hstep : csvScan (',' :: (serRow (g :: t) ++ '\n' :: rest)) false f.reverse row acc
        = csvScan (serRow (g :: t) ++ '\n' :: rest) false [] (f.reverse.reverse :: row) acc := by
      simp [csvScan]
    rw [hstep]
    simp only [List.reverse_reverse]
    rw [ih g rest (f :: row) acc]
    simp

theorem csvScan_table (rows : List (List Str)) (h : ∀ r ∈ rows, r ≠ []) :
    ∀ acc, csvScan (serTable rows) false [] [] acc = acc.reverse ++ rows := by
  induction rows with
  | nil => intro acc; simp [serTable, csvScan]
  | cons r rs ih =>
    intro acc
    have hr : r ≠ [] := h r (List.mem_cons_self r rs)
    obtain ⟨f, r', rfl⟩ : ∃ f r'', r = f :: r'' := by
      cases r with
      | nil => exact absurd rfl hr
      | cons f r'' => exact ⟨f, r'', rfl⟩
    have hser : serTable ((f :: r') :: rs) = serRow (f :: r') ++ '\n' :: serTable rs := by
      simp [serTable]
    rw [hser, csvScan_row f r' (serTable rs) [] acc,
      ih (fun x hx => h x (List.mem_cons_of_mem _ hx)) _]
    simp

/-! ## Claim C8 — CSV export round-trips -/

/-- C8: for every well-formed filtered table with at least one column, the
exported CSV is a header line of the column names followed by one line per
retained row (no index column), and re-parsing it recovers exactly the
column names and the stringified cell values, in order. -/
theorem claim_C8 (t : Table) (h1 : t.names ≠ [])
    (h2 : ∀ r ∈ t.rows, r.length = t.names.length) :
    parseCSV (csvExport t) = t.names :: t.rows.map (fun r => r.map cellStrCsv) := by
  rw [parseCSV, csvExport]
  have hrows : ∀ r ∈ t.names :: t.rows.map (fun r => r.map cellStrCsv), r ≠ [] := by
    intro r hr
    rcases List.mem_cons.mp hr with rfl | hmem
    · exact h1
    · obtain ⟨r0, hr0, rfl⟩ := List.mem_map.mp hmem
      have hlen := h2 r0 hr0
      intro hnil
      rw [List.map_eq_nil_iff] at hnil
      subst hnil
      simp only [List.length_nil] at hlen
      exact h1 (List.eq_nil_of_length_eq_zero hlen.symm)
  rw [csvScan_table _ hrows []]
  simp

/-- C8 witness: the round trip on a concrete table whose cells exercise
quoting — an embedded comma, embedded quotes, and a missing value. -/
theorem claim_C8_witness :
    parseCSV (csvExport quotedTable) =
      quotedTable.names :: quotedTable.rows.map (fun r => r.map cellStrCsv) :=
  claim_C8 quotedTable (by decide) (by decide)

/-! ## Claim C10 — the display cap does not affect the export -/

/-- C10: for every table, column selection, search term and display cap, the
tab-4 pipeline's CSV download is the serialization of the *whole* filtered
table — the same for every cap — while the cap only truncates the rows put
on screen. -/
theorem claim_C10 (t : Table) (sel : List Str) (term : Str) (cap : Nat) :
    (tab4 t sel term cap).map (fun v => v.csv) = (tab4Filtered t sel term).map csvExport ∧
    (tab4 t sel term cap).map (fun v => v.shown)
      = (tab4Filtered t sel term).map (fun ft => ft.rows.take cap) := by
  cases hsel : (if sel = [] then some t else selectCols t sel) with
  | none => simp [tab4, tab4Filtered, hsel]
  | some t1 =>
    cases hsf : searchFilter t1 term with
    | none => simp [tab4, tab4Filtered, hsel, hsf]
    | some t2 => simp [tab4, tab4Filtered, hsel, hsf]

/-- C7 witness: the characterization applied to a singleton column list,
exhibiting the keyword decomposition of `direccion1`. -/
theorem claim_C7_witness :
    "Direccion1".data ∈ processAddresses ["Direccion1".data] :=
  (claim_C7 ["Direccion1".data] "Direccion1".data).mpr
    ⟨by decide, "direccion".data, by decide, [], ['1'], by decide⟩
